import Mathlib

/-!
Shallow embedding of the delta-neutral trading engine of `perpdex_trading`
(`cluade_zone/strategy/portfolio_manager.py`, `cluade_zone/strategy/correlation.py`,
`cluade_zone/trading/main_loop.py`).

Python floats are modelled as exact rationals (`ℚ`); the real-valued parts of the
Pearson-correlation computation (`** 0.5`) are modelled over `ℝ`.  Python's builtin
`round(x, n)` rounds to the nearest multiple of `10^(-n)` with ties going to the even
digit (banker's rounding); it is embedded as `pyRound` below.  Exceptions that the
source catches locally are modelled as `Option`: `none` means "the call raised".
Randomness (`random.sample`, `random.randint`) is modelled by explicit oracle
parameters; wall-clock sampling is modelled by explicit observation streams.
-/

namespace PerpDex

/-- `OrderSide` enum from `exchanges/base.py`. -/
inductive OrderSide where
  | long
  | short
  deriving DecidableEq, Repr

/-- `OrderType` enum from `exchanges/base.py`. -/
inductive OrderType where
  | market
  | limit
  deriving DecidableEq, Repr

/-- `Asset` dataclass from `exchanges/base.py`. -/
structure Asset where
  symbol : String
  base_asset : String
  quote_asset : String
  min_size : ℚ
  price_precision : ℕ
  size_precision : ℕ
  deriving DecidableEq, Repr

/-- `Order` dataclass from `exchanges/base.py` (`price=None` for market orders,
`leverage` defaults to `1.0`, `exchange` defaults to `None`). -/
structure Order where
  symbol : String
  side : OrderSide
  order_type : OrderType
  size : ℚ
  price : Option ℚ
  leverage : ℚ
  exchange : Option String
  deriving DecidableEq, Repr

/-- `OrderResult` dataclass from `exchanges/base.py`. -/
structure OrderResult where
  order_id : String
  symbol : String
  side : OrderSide
  size : ℚ
  filled_price : ℚ
  status : String
  timestamp : ℚ
  deriving DecidableEq, Repr

/-- `Position` dataclass from `exchanges/base.py`. -/
structure Position where
  exchange : String
  symbol : String
  side : OrderSide
  size : ℚ
  entry_price : ℚ
  current_price : ℚ
  unrealized_pnl : ℚ
  leverage : ℚ
  liquidation_price : Option ℚ
  deriving DecidableEq, Repr

/-- `Balance` dataclass from `exchanges/base.py`. -/
structure Balance where
  asset : String
  free : ℚ
  locked : ℚ
  total : ℚ
  deriving DecidableEq, Repr

/-- An `ExchangeClient` (the venue-gateway interface of `exchanges/base.py`) as the
portfolio manager observes it at one instant: each operation either returns a value
or raises (`none`). -/
structure ExchangeClient where
  name : String
  getCurrentPrice : String → Option ℚ
  getAvailableAssets : Option (List Asset)
  placeOrder : Order → Option OrderResult
  closeAllPositions : Option (List OrderResult)
  getBalance : Option Balance
  getPositions : Option (List Position)
  liquidationRisk : Option Bool

/-- `PortfolioBasket` dataclass from `strategy/portfolio_manager.py`. -/
structure PortfolioBasket where
  side : OrderSide
  exchanges : List String
  orders : List Order
  target_delta : ℚ

/-- The `PortfolioManager` state: its list of clients
(`self.clients` in `strategy/portfolio_manager.py`). -/
structure PortfolioManager where
  clients : List ExchangeClient

/-- `self.clients_map = {c.name: c for c in clients}`: a Python dict comprehension,
so on duplicate names the LAST client wins; lookup by name. -/
def clientsMap (clients : List ExchangeClient) (nm : String) : Option ExchangeClient :=
  clients.reverse.find? (fun c => c.name == nm)

/-- Round a rational to the nearest integer, ties to the even integer.  This is the
rounding rule of Python's builtin `round` ("banker's rounding"), which the source
uses for every size rounding. -/
def roundHalfEven (q : ℚ) : ℤ :=
  let f := ⌊q⌋
  let r := q - (f : ℚ)
  if r < 1 / 2 then f
  else if 1 / 2 < r then f + 1
  else if f % 2 = 0 then f else f + 1

/-- Python's `round(x, n)` for `n ≥ 0`: round to `n` decimal digits, ties to even. -/
def pyRound (x : ℚ) (n : ℕ) : ℚ :=
  ((roundHalfEven (x * 10 ^ n) : ℚ)) / 10 ^ n

/-- Rounding half away from zero at `n` decimal digits — the rounding rule the spec
claims the engine uses (stated from the spec's words, for comparison with `pyRound`,
which is what the source actually does). -/
def specRoundHalfAwayFromZero (x : ℚ) (n : ℕ) : ℚ :=
  (if 0 ≤ x then (⌊x * 10 ^ n + 1 / 2⌋ : ℚ) else -(⌊-(x * 10 ^ n) + 1 / 2⌋ : ℚ)) / 10 ^ n

/-- `PortfolioManager._get_client_for_order`: use the order's venue tag when it is a
non-empty name of a known client (`if order.exchange and order.exchange in
self.clients_map`); otherwise fall back to the first client; `None` when there are
no clients at all. -/
def getClientForOrder (pm : PortfolioManager) (o : Order) : Option ExchangeClient :=
  match o.exchange with
  | some ex =>
      if ex ≠ "" then
        match clientsMap pm.clients ex with
        | some c => some c
        | none => pm.clients.head?
      else pm.clients.head?
  | none => pm.clients.head?

/-- One order's contribution inside `PortfolioManager._calculate_basket_delta`:
`size * current_price`, negated for SHORT; a missing client or a price-fetch
exception contributes nothing (the source `continue`s). -/
def orderDeltaContribution (pm : PortfolioManager) (o : Order) : ℚ :=
  match getClientForOrder pm o with
  | none => 0
  | some c =>
      match c.getCurrentPrice o.symbol with
      | none => 0
      | some p =>
          if o.side = OrderSide.short then -(o.size * p) else o.size * p

/-- `PortfolioManager._calculate_basket_delta`: sum of the contributions. -/
def calculateBasketDelta (pm : PortfolioManager) : List Order → ℚ
  | [] => 0
  | o :: rest => orderDeltaContribution pm o + calculateBasketDelta pm rest

/-- `PortfolioManager._adjust_order_sizes`: for `factor <= 0` return the input list
unchanged; otherwise rebuild each order with size `round(size*factor, 6)`, replaced
by `max(size*0.1, 1e-6)` whenever that rounds to `<= 0`.  The rebuilt `Order(...)`
call omits `leverage`, so it resets to the default `1.0`. -/
def adjustOrderSizes (orders : List Order) (factor : ℚ) : List Order :=
  if factor ≤ 0 then orders
  else
    orders.map (fun o =>
      let a := pyRound (o.size * factor) 6
      let a := if a ≤ 0 then max (o.size * (1 / 10)) (1 / 1000000) else a
      { symbol := o.symbol, side := o.side, order_type := o.order_type,
        size := a, price := o.price, leverage := 1, exchange := o.exchange })

/-- State threaded through the `while` loop of `PortfolioManager._balance_baskets`. -/
structure LoopState where
  lo : List Order
  so : List Order
  ld : ℚ
  sd : ℚ
  att : ℕ

/-- The `while attempts < 5 and abs(long_delta + short_delta) > tolerance` loop of
`PortfolioManager._balance_baskets`, with `fuel = 5 - attempts` iterations remaining.
Inside the loop: break when either absolute delta is below `1e-9`; otherwise scale
the basket with the larger absolute delta by `min/max`, recompute both deltas and
increment `attempts`. -/
def balanceLoop (pm : PortfolioManager) (tol : ℚ) : ℕ → LoopState → LoopState
  | 0, s => s
  | fuel + 1, s =>
      if tol < |s.ld + s.sd| then
        if |s.ld| < 1 / 1000000000 ∨ |s.sd| < 1 / 1000000000 then s
        else if |s.sd| < |s.ld| then
          let lo := adjustOrderSizes s.lo (|s.sd| / |s.ld|)
          balanceLoop pm tol fuel
            ⟨lo, s.so, calculateBasketDelta pm lo, calculateBasketDelta pm s.so, s.att + 1⟩
        else
          let so := adjustOrderSizes s.so (|s.ld| / |s.sd|)
          balanceLoop pm tol fuel
            ⟨s.lo, so, calculateBasketDelta pm s.lo, calculateBasketDelta pm so, s.att + 1⟩
      else s

/-- Result of `PortfolioManager._balance_baskets`, extended with the number of
scaling attempts performed and whether the residual-imbalance warning was logged. -/
structure BalanceResult where
  longOrders : List Order
  shortOrders : List Order
  longDelta : ℚ
  shortDelta : ℚ
  attempts : ℕ
  loggedResidual : Bool

/-- `PortfolioManager._balance_baskets` (default `tolerance = 0.5`): compute both
deltas; when either order list is empty return immediately (no attempt, no residual
log); else run the scaling loop (at most 5 attempts) and log the residual imbalance
whenever it still exceeds the tolerance. -/
def balanceBaskets (pm : PortfolioManager) (lo so : List Order) (tol : ℚ) : BalanceResult :=
  let ld := calculateBasketDelta pm lo
  let sd := calculateBasketDelta pm so
  if lo = [] ∨ so = [] then ⟨lo, so, ld, sd, 0, false⟩
  else
    let r := balanceLoop pm tol 5 ⟨lo, so, ld, sd, 0⟩
    ⟨r.lo, r.so, r.ld, r.sd, r.att, decide (tol < |r.ld + r.sd|)⟩

/-- The hardcoded `WHITELISTED_SYMBOLS` list of `_create_basket_orders`. -/
def WHITELISTED_SYMBOLS : List String :=
  ["SOL_USDC_PERP", "BTC_USDC_PERP", "ETH_USDC_PERP"]

/-- The body of the per-asset `for` loop of `PortfolioManager._create_basket_orders`
(lines 225-263): fetch the price (an exception skips the asset, as does the
`ZeroDivisionError` from a zero price), compute `size = capital_per_asset / price`,
clamp the rounding precision to `min(size_precision, 2)`, raise a size below
`min_size * 2.0` to exactly that bound, round, and drop the asset if the rounded
size is still below `min_size`; otherwise emit a MARKET order tagged with the
venue. -/
def createOrderForAsset (client : ExchangeClient) (exName : String) (side : OrderSide)
    (capitalPerAsset : ℚ) (asset : Asset) : Option Order :=
  match client.getCurrentPrice asset.symbol with
  | none => none
  | some price =>
      if price = 0 then none
      else
        let size0 := capitalPerAsset / price
        let safePrecision := min asset.size_precision 2
        let minRequired := asset.min_size * 2
        let size1 := if size0 < minRequired then minRequired else size0
        let size2 := pyRound size1 safePrecision
        if size2 < asset.min_size then none
        else
          some { symbol := asset.symbol, side := side, order_type := OrderType.market,
                 size := size2, price := none, leverage := 1, exchange := some exName }

/-- The Python truthiness test `if preselected_assets and exchange_name in
preselected_assets`: `None` and the empty dict are falsy; otherwise look the
exchange up. -/
def preselectedFor (pre : Option (List (String × List Asset))) (ex : String) :
    Option (List Asset) :=
  match pre with
  | none => none
  | some m => if m = [] then none else m.lookup ex

/-- Asset selection for one exchange in `_create_basket_orders`: the preselected
path filters out excluded symbols (`if not excluded_symbols or asset.symbol not in
excluded_symbols`); the whitelist path filters available assets (exception or empty
list skips the venue) to the whitelist, applies the exclusion filter when the
excluded set is non-empty, and then draws a random sample — modelled by the oracle
`rand`.  An empty result means the venue is skipped (`continue`). -/
def selectedAssetsForExchange (client : ExchangeClient) (ex : String)
    (pre : Option (List (String × List Asset))) (excl : List String)
    (rand : String → List Asset → List Asset) : List Asset :=
  match preselectedFor pre ex with
  | some assets => assets.filter (fun a => excl = [] ∨ a.symbol ∉ excl)
  | none =>
      match client.getAvailableAssets with
      | none => []
      | some avail =>
          if avail = [] then []
          else
            let wl := avail.filter (fun a => a.symbol ∈ WHITELISTED_SYMBOLS)
            let wl2 := if excl ≠ [] then wl.filter (fun a => a.symbol ∉ excl) else wl
            if wl2 = [] then [] else rand ex wl2

/-- The per-exchange `for` loop of `_create_basket_orders`.  The un-guarded dict
access `self.clients_map[exchange_name]` raises `KeyError` for an unknown venue,
which nothing catches: that aborts the whole function, modelled by `none`.
For a known venue the selected assets share the venue's capital equally and each
asset may contribute one order. -/
def basketOrdersForExchanges (pm : PortfolioManager) (side : OrderSide)
    (capPerExchange : ℚ) (pre : Option (List (String × List Asset)))
    (excl : List String) (rand : String → List Asset → List Asset) :
    List String → Option (List Order)
  | [] => some []
  | ex :: rest =>
      match clientsMap pm.clients ex with
      | none => none
      | some client =>
          let sel := selectedAssetsForExchange client ex pre excl rand
          let here : List Order :=
            if sel = [] then []
            else sel.filterMap
              (createOrderForAsset client ex side (capPerExchange / (sel.length : ℚ)))
          match basketOrdersForExchanges pm side capPerExchange pre excl rand rest with
          | none => none
          | some os => some (here ++ os)

/-- `PortfolioManager._create_basket_orders`: `capital_per_exchange = total /
len(exchanges) if exchanges else 0`, then the per-exchange loop. -/
def createBasketOrders (pm : PortfolioManager) (exchanges : List String)
    (side : OrderSide) (totalCapital : ℚ) (pre : Option (List (String × List Asset)))
    (excl : List String) (rand : String → List Asset → List Asset) :
    Option (List Order) :=
  let capPerExchange := if exchanges = [] then 0 else totalCapital / (exchanges.length : ℚ)
  basketOrdersForExchanges pm side capPerExchange pre excl rand exchanges

/-- Steps 3-4 of `PortfolioManager.create_delta_neutral_portfolio` (after the random
venue split and the correlation-selector call, both passed in as parameters): build
the long orders with no exclusions, collect their symbols, build the short orders
excluding those symbols, then balance the two baskets (tolerance 0.5) and wrap the
results into `PortfolioBasket`s. -/
def createDeltaNeutralPortfolio (pm : PortfolioManager)
    (longEx shortEx : List String)
    (longMap shortMap : Option (List (String × List Asset)))
    (capitalPerSide : ℚ) (randL randS : String → List Asset → List Asset) :
    Option (PortfolioBasket × PortfolioBasket) :=
  match createBasketOrders pm longEx OrderSide.long capitalPerSide longMap [] randL with
  | none => none
  | some longOrders =>
      let usedSymbols := longOrders.map Order.symbol
      match createBasketOrders pm shortEx OrderSide.short capitalPerSide shortMap
          usedSymbols randS with
      | none => none
      | some shortOrders =>
          let r := balanceBaskets pm longOrders shortOrders (1 / 2)
          some (⟨OrderSide.long, longEx, r.longOrders, r.longDelta⟩,
                ⟨OrderSide.short, shortEx, r.shortOrders, r.shortDelta⟩)

/-- `PortfolioManager.execute_basket`: submit each order via its resolved client
(skipping orders with no client and orders whose submission raises) and convert each
`OrderResult` into a `Position` with entry = current = fill price, zero unrealized
P&L and leverage 1. -/
def executeBasket (pm : PortfolioManager) (basket : PortfolioBasket) : List Position :=
  basket.orders.filterMap (fun o =>
    match getClientForOrder pm o with
    | none => none
    | some c =>
        match c.placeOrder o with
        | none => none
        | some res =>
            some { exchange := c.name, symbol := res.symbol, side := res.side,
                   size := res.size, entry_price := res.filled_price,
                   current_price := res.filled_price, unrealized_pnl := 0,
                   leverage := 1, liquidation_price := none })

/-- `PriceData` dataclass from `strategy/correlation.py`. -/
structure PriceData where
  symbol : String
  exchange : String
  prices : List ℚ
  timestamps : List ℚ

/-- `AssetPair` dataclass from `strategy/correlation.py`. -/
structure AssetPair where
  long_asset : Asset
  long_exchange : String
  short_asset : Asset
  short_exchange : String
  correlation : ℚ
  deriving DecidableEq, Repr

/-- `CorrelationCalculator._calculate_returns`: simple returns
`(p[i] - p[i-1]) / p[i-1]`, skipping steps whose previous price is zero; empty for
fewer than 2 prices. -/
def calcReturns : List ℚ → List ℚ
  | [] => []
  | [_] => []
  | p0 :: p1 :: rest =>
      (if p0 ≠ 0 then [(p1 - p0) / p0] else []) ++ calcReturns (p1 :: rest)

/-- The mean `sum(l) / n` used by `calculate_correlation`. -/
def listMean (l : List ℚ) : ℚ := l.sum / (l.length : ℚ)

/-- The sum of squared deviations `sum((x - mean)^2 for x in l)` that
`calculate_correlation` divides by `n` under the square root. -/
def sumSqDev (l : List ℚ) : ℚ :=
  (l.map (fun x => (x - listMean l) ^ 2)).sum

open Classical in
/-- `CorrelationCalculator.calculate_correlation`: Pearson correlation of the two
series' returns.  Return 0 for an empty price list, fewer than 2 return points, or
a zero standard deviation; otherwise truncate both return lists to the common
length and compute `numerator / (n * std1 * std2)` with `std = sqrt(sumSq / n)`
(the source's `** 0.5`, exact over `ℝ`). -/
noncomputable def calculateCorrelation (d1 d2 : PriceData) : ℝ :=
  if d1.prices = [] ∨ d2.prices = [] then 0
  else
    let returns1 := calcReturns d1.prices
    let returns2 := calcReturns d2.prices
    if returns1.length < 2 ∨ returns2.length < 2 then 0
    else
      let minLen := min returns1.length returns2.length
      let r1 := returns1.take minLen
      let r2 := returns2.take minLen
      if r1.length = 0 then 0
      else
        let n : ℚ := (r1.length : ℚ)
        let mean1 := listMean r1
        let mean2 := listMean r2
        let numerator : ℚ :=
          ((r1.zip r2).map (fun p => (p.1 - mean1) * (p.2 - mean2))).sum
        let std1 : ℝ := Real.sqrt ((sumSqDev r1 / n : ℚ) : ℝ)
        let std2 : ℝ := Real.sqrt ((sumSqDev r2 / n : ℚ) : ℝ)
        if std1 = 0 ∨ std2 = 0 then 0
        else (numerator : ℝ) / ((n : ℝ) * std1 * std2)

/-- Update every entry of an association list holding a given key (a Python dict
holds each key once, so after a comprehension-style initialisation with de-duplicated
keys this updates exactly one entry). -/
def updateAssoc (m : List (String × List Asset)) (k : String) (v : List Asset) :
    List (String × List Asset) :=
  m.map (fun kv => if kv.1 = k then (k, v) else kv)

/-- The greedy pair-assignment loop of
`CorrelationCalculator.select_best_correlated_assets` (lines 260-285): walk the
ranked pairs once; skip a pair whose long symbol was already used on the long side
or whose short symbol was already used on the short side; skip a pair whose venue
list is full; otherwise append both assets and mark both symbols used.  The dict
accesses `long_assets_by_exchange[pair.long_exchange]` /
`short_assets_by_exchange[pair.short_exchange]` raise `KeyError` (= `none`) for a
venue outside the initialised key set. -/
def assignPairs (target : ℕ) :
    List AssetPair →
    List (String × List Asset) → List (String × List Asset) →
    List String → List String →
    Option (List (String × List Asset) × List (String × List Asset))
  | [], lm, sm, _, _ => some (lm, sm)
  | p :: rest, lm, sm, usedL, usedS =>
      if p.long_asset.symbol ∈ usedL then assignPairs target rest lm sm usedL usedS
      else if p.short_asset.symbol ∈ usedS then assignPairs target rest lm sm usedL usedS
      else
        match lm.lookup p.long_exchange, sm.lookup p.short_exchange with
        | some ll, some sl =>
            if target ≤ ll.length then assignPairs target rest lm sm usedL usedS
            else if target ≤ sl.length then assignPairs target rest lm sm usedL usedS
            else
              assignPairs target rest
                (updateAssoc lm p.long_exchange (ll ++ [p.long_asset]))
                (updateAssoc sm p.short_exchange (sl ++ [p.short_asset]))
                (p.long_asset.symbol :: usedL) (p.short_asset.symbol :: usedS)
        | _, _ => none

/-- `CorrelationCalculator._fallback_random_selection`: per venue, sample
`min(target, len(assets))` of the venue's available assets (the sample is the
oracle `rand`); an unknown venue or a failed asset query yields an empty list. -/
def fallbackRandomSelection (clients : List ExchangeClient)
    (exchanges : List String) (rand : String → List Asset → List Asset) :
    List (String × List Asset) :=
  exchanges.map (fun ex =>
    (ex,
      match clientsMap clients ex with
      | none => []
      | some c =>
          match c.getAvailableAssets with
          | none => []
          | some assets => rand ex assets))

/-- `CorrelationCalculator.select_best_correlated_assets` after its live sampling
phase: `pairs` is the ranked list produced by `find_correlated_pairs_fast` (live
wall-clock price sampling, passed in as data).  With no pairs it falls back to the
random per-venue selection; otherwise it initialises one empty slot list per venue
(dict comprehension: duplicate venue names collapse) and runs the greedy
assignment. -/
def selectBestCorrelatedAssets (clients : List ExchangeClient)
    (longEx shortEx : List String) (target : ℕ) (pairs : List AssetPair)
    (randL randS : String → List Asset → List Asset) :
    Option (List (String × List Asset) × List (String × List Asset)) :=
  if pairs = [] then
    some (fallbackRandomSelection clients longEx randL,
          fallbackRandomSelection clients shortEx randS)
  else
    assignPairs target pairs
      (longEx.dedup.map (fun ex => (ex, ([] : List Asset))))
      (shortEx.dedup.map (fun ex => (ex, ([] : List Asset))))
      [] []

/-- Observable actions of the trading-cycle orchestrator (`trading/main_loop.py`),
the alphabet over which the MONITOR/EXIT and error-containment behaviour is
stated. -/
inductive BotAction where
  | closeAllVenues
  | reconfirmFlat (venue : String)
  | logCash (venue : String) (amount : ℚ)
  | convertFailed (venue : String)
  | logError (msg : String)
  | logStackTrace (msg : String)
  | emergencyCloseAll
  | logCleanupFailed (msg : String)
  | logCycleDone
  | interCycleWait
  deriving DecidableEq, Repr

/-- The MONITOR loop of `TradingBot.run_cycle` (lines 119-137).  `polls k` is the
pair (total P&L from `get_total_pnl`, flag from `check_liquidation_risk`) the bot
would observe on poll `k`; polls are 10 seconds apart and `elapsed_time = 10 * k`.
The loop body first tests `total_pnl >= self.profit_target` (clean exit,
`forced_liquidation` stays false) and then the risk flag (forced exit).  The
source's `while True` has no other exit; `fuel` merely truncates the unbounded
loop for modelling, `none` meaning "still looping after `fuel` polls". -/
def monitorLoop (target : ℚ) (polls : ℕ → ℚ × Bool) : ℕ → ℕ → Option (Bool × ℕ)
  | 0, _ => none
  | fuel + 1, k =>
      if target ≤ (polls k).1 then some (false, 10 * k)
      else if (polls k).2 then some (true, 10 * k)
      else monitorLoop target polls fuel (k + 1)

/-- One client's part of `TradingBot._convert_all_assets_to_cash`: re-close all
positions (re-confirming the venue is flat), then fetch and log the cash balance;
an exception at either step is caught and logged as a failure for that venue. -/
def convertClient (c : ExchangeClient) : List BotAction :=
  match c.closeAllPositions with
  | none => [BotAction.convertFailed c.name]
  | some _ =>
      match c.getBalance with
      | none => [BotAction.reconfirmFlat c.name, BotAction.convertFailed c.name]
      | some b => [BotAction.reconfirmFlat c.name, BotAction.logCash c.name b.total]

/-- `TradingBot._convert_all_assets_to_cash`: the conversion pass over every
client, in order. -/
def convertAllAssetsToCash (clients : List ExchangeClient) : List BotAction :=
  clients.flatMap convertClient

/-- Steps 4-5 of `TradingBot.run_cycle`: run the MONITOR loop; on exit close all
positions unconditionally, and run the convert-to-cash pass exactly when the exit
was forced by liquidation risk.  `none` = the monitor loop has not exited within
`fuel` polls (it has no timeout of its own). -/
def monitorAndExitPhase (clients : List ExchangeClient) (target : ℚ)
    (polls : ℕ → ℚ × Bool) (fuel : ℕ) : Option (Bool × ℕ × List BotAction) :=
  match monitorLoop target polls fuel 0 with
  | none => none
  | some (forced, elapsed) =>
      some (forced, elapsed,
        [BotAction.closeAllVenues] ++
          (if forced then convertAllAssetsToCash clients else []))

/-- The environment one execution of `TradingBot.run_cycle` runs against: the
outcome of the whole `try` body (stages BUILD..PERSIST) — either its action trace
plus an early-return flag (the `total_positions == 0` abort returns from inside the
`try`, skipping the trailing logs and wait), or the exception it raised — and the
outcome of the best-effort emergency `close_all_positions` used by the `except`
handler. -/
structure CycleEnv where
  body : Except String (List BotAction × Bool)
  emergencyClose : Except String Unit

/-- `TradingBot.run_cycle`'s outer structure (lines 72-176): run the `try` body;
any exception is caught at the cycle boundary, logged with its stack trace, and
answered with one best-effort `close_all_positions` whose own failure is only
logged; afterwards (except on the early return) the cycle logs completion and
performs the standard inter-cycle wait.  The function is total: no exception
escapes. -/
def runCycle (env : CycleEnv) : List BotAction :=
  match env.body with
  | Except.ok (acts, early) =>
      if early then acts
      else acts ++ [BotAction.logCycleDone, BotAction.interCycleWait]
  | Except.error e =>
      [BotAction.logError e, BotAction.logStackTrace e, BotAction.emergencyCloseAll] ++
        (match env.emergencyClose with
         | Except.ok _ => []
         | Except.error ce => [BotAction.logCleanupFailed ce]) ++
        [BotAction.logCycleDone, BotAction.interCycleWait]

/-! ### Concrete fixtures used by counterexamples and witnesses -/

/-- A venue whose price feed always answers `$1` and whose other operations raise. -/
def fixClient : ExchangeClient where
  name := "A"
  getCurrentPrice := fun _ => some 1
  getAvailableAssets := none
  placeOrder := fun _ => none
  closeAllPositions := none
  getBalance := none
  getPositions := none
  liquidationRisk := none

/-- A portfolio manager over the single fixture venue. -/
def fixPM : PortfolioManager := ⟨[fixClient]⟩

/-- A BTC perpetual asset with `min_size = 0.01` and size precision 2. -/
def fixBTC : Asset := ⟨"BTC_USDC_PERP", "BTC", "USDC", 1 / 100, 2, 2⟩

/-- An ETH perpetual asset with `min_size = 0.01` and size precision 2. -/
def fixETH : Asset := ⟨"ETH_USDC_PERP", "ETH", "USDC", 1 / 100, 2, 2⟩

/-! ### Rounding lemmas -/

/-- `roundHalfEven` lands within one half of its argument, and a distance of
exactly one half forces an even result. -/
theorem roundHalfEven_close (q : ℚ) :
    |q - (roundHalfEven q : ℚ)| ≤ 1 / 2 ∧
      (|q - (roundHalfEven q : ℚ)| = 1 / 2 → roundHalfEven q % 2 = 0) := by
  have h0 : ((⌊q⌋ : ℚ)) ≤ q := Int.floor_le q
  have h1 : q < (⌊q⌋ : ℚ) + 1 := Int.lt_floor_add_one q
  simp only [roundHalfEven]
  split_ifs with hlt hgt heven
  · constructor
    · rw [abs_of_nonneg (by linarith)]; linarith
    · intro habs; rw [abs_of_nonneg (by linarith)] at habs; linarith
  · push_cast
    constructor
    · rw [abs_of_nonpos (by linarith)]; linarith
    · intro habs; rw [abs_of_nonpos (by linarith)] at habs; linarith
  · have heq : q - (⌊q⌋ : ℚ) = 1 / 2 := le_antisymm (not_lt.mp hgt) (not_lt.mp hlt)
    constructor
    · rw [abs_of_nonneg (by linarith)]; linarith
    · intro _; exact heven
  · have heq : q - (⌊q⌋ : ℚ) = 1 / 2 := le_antisymm (not_lt.mp hgt) (not_lt.mp hlt)
    push_cast
    constructor
    · rw [abs_of_nonpos (by linarith)]; linarith
    · intro _; omega
  -- the names hlt/hgt/heven follow the three if-tests of roundHalfEven

/-- `pyRound x n` is an integer multiple of `10^(-n)`, lies within half a unit in
the last place of `x`, and a tie forces the even multiple: Python's documented
`round` behaviour ("banker's rounding"). -/
theorem pyRound_close (x : ℚ) (n : ℕ) :
    ∃ k : ℤ, pyRound x n = (k : ℚ) / 10 ^ n ∧
      |x - pyRound x n| ≤ 1 / (2 * 10 ^ n) ∧
      (|x - pyRound x n| = 1 / (2 * 10 ^ n) → k % 2 = 0) := by
  have hpow : (0 : ℚ) < 10 ^ n := by positivity
  refine ⟨roundHalfEven (x * 10 ^ n), rfl, ?_, ?_⟩
  all_goals
    have hsub : x - pyRound x n =
        (x * 10 ^ n - (roundHalfEven (x * 10 ^ n) : ℚ)) / 10 ^ n := by
      unfold pyRound; field_simp
    have habs : |x - pyRound x n| =
        |x * 10 ^ n - (roundHalfEven (x * 10 ^ n) : ℚ)| / 10 ^ n := by
      rw [hsub, abs_div, abs_of_pos hpow]
    have hspec := roundHalfEven_close (x * 10 ^ n)
  · rw [habs, div_le_div_iff₀ hpow (by positivity)]
    nlinarith [hspec.1]
  · intro htie
    apply hspec.2
    rw [habs] at htie
    have heq : |x * 10 ^ n - (roundHalfEven (x * 10 ^ n) : ℚ)| = (1 / (2 * 10 ^ n)) * 10 ^ n := by
      field_simp at htie ⊢; linarith
    rw [heq]; field_simp; ring

/-- A SOL perpetual asset with `min_size = 0.1` and size precision 2. -/
def fixSOL : Asset := ⟨"SOL_USDC_PERP", "SOL", "USDC", 1 / 10, 2, 2⟩

/-- The order `_create_basket_orders` emits for `fixSOL` with capital `$1` at price `$1`. -/
def fixSOLOrder : Order :=
  ⟨"SOL_USDC_PERP", OrderSide.long, OrderType.market, 1, none, 1, some "A"⟩

/-- `fixSOLOrder` after `_adjust_order_sizes` with factor `0.01`. -/
def fixSOLSmall : Order :=
  ⟨"SOL_USDC_PERP", OrderSide.long, OrderType.market, 1 / 100, none, 1, some "A"⟩

/-- The order `_create_basket_orders` emits for `fixBTC` with capital `$0.125` at price `$1`. -/
def fixBTCOrder : Order :=
  ⟨"BTC_USDC_PERP", OrderSide.long, OrderType.market, 12 / 100, none, 1, some "A"⟩

/-- C4 (counterexample): on the real code path of `_create_basket_orders` — capital
share `$0.125`, price `$1`, size precision 2 — the emitted size is
`round(0.125, 2) = 0.12` (Python rounds ties to the even digit), not the
`0.13` that "round half away from zero" would give.  `0.125` is exactly
representable in binary floating point, so the idealised rational computation
agrees with the float one here. -/
theorem claim_C4_counterexample :
    (createOrderForAsset fixClient "A" OrderSide.long (1 / 8) fixBTC).map Order.size
        = some (pyRound (1 / 8) 2) ∧
      pyRound (1 / 8) 2 = 12 / 100 ∧
      specRoundHalfAwayFromZero (1 / 8) 2 = 13 / 100 ∧
      (createOrderForAsset fixClient "A" OrderSide.long (1 / 8) fixBTC).map Order.size
        ≠ some (specRoundHalfAwayFromZero (1 / 8) 2) := by
  have hc : createOrderForAsset fixClient "A" OrderSide.long (1 / 8) fixBTC
      = some fixBTCOrder := by
    norm_num [createOrderForAsset, fixClient, fixBTC, fixBTCOrder, pyRound, roundHalfEven]
  refine ⟨?_, ?_, ?_, ?_⟩
  · rw [hc]; norm_num [pyRound, roundHalfEven, fixBTCOrder]
  · norm_num [pyRound, roundHalfEven]
  · norm_num [specRoundHalfAwayFromZero]
  · rw [hc]; norm_num [specRoundHalfAwayFromZero, fixBTCOrder]

/-- C4 (amended): all monetary size rounding in the engine uses Python's `round` —
round to nearest at the applicable precision with ties to the EVEN digit (banker's
rounding), not half away from zero: (1) `pyRound` lands on a multiple of
`10^(-n)` within half a unit, ties going to the even multiple; (2) every size
emitted by `_create_basket_orders` is `pyRound` of some value at precision
`min(size_precision, 2)`; (3) every size produced by `_adjust_order_sizes` with a
positive factor is `pyRound (size * factor) 6` or the positive floor replacing a
non-positive rounding. -/
theorem claim_C4_amended :
    (∀ (x : ℚ) (n : ℕ), ∃ k : ℤ, pyRound x n = (k : ℚ) / 10 ^ n ∧
        |x - pyRound x n| ≤ 1 / (2 * 10 ^ n) ∧
        (|x - pyRound x n| = 1 / (2 * 10 ^ n) → k % 2 = 0)) ∧
    (∀ client exName side cap a o,
        createOrderForAsset client exName side cap a = some o →
        ∃ s : ℚ, o.size = pyRound s (min a.size_precision 2)) ∧
    (∀ (orders : List Order) (factor : ℚ) o2, 0 < factor →
        o2 ∈ adjustOrderSizes orders factor →
        ∃ o ∈ orders, o2.size = pyRound (o.size * factor) 6 ∨
          o2.size = max (o.size * (1 / 10)) (1 / 1000000)) := by
  refine ⟨pyRound_close, ?_, ?_⟩
  · intro client exName side cap a o h
    cases hp : client.getCurrentPrice a.symbol with
    | none => rw [createOrderForAsset, hp] at h; cases h
    | some price =>
        simp only [createOrderForAsset, hp] at h
        split_ifs at h <;>
          first
          | exact Option.noConfusion h
          | (rw [← Option.some.inj h]; exact ⟨_, rfl⟩)
  · intro orders factor o2 hf hmem
    rw [adjustOrderSizes, if_neg (not_le.mpr hf)] at hmem
    obtain ⟨o, ho, heq⟩ := List.mem_map.mp hmem
    refine ⟨o, ho, ?_⟩
    by_cases hc : pyRound (o.size * factor) 6 ≤ 0
    · right; rw [← heq]; simp [hc]
    · left; rw [← heq]; simp [hc]

/-- C4 (witness for the amended theorem): the emitted size `0.12` of the
counterexample run is indeed `pyRound` at the clamped precision of `fixBTC`. -/
theorem claim_C4_witness :
    ∃ s : ℚ, fixBTCOrder.size = pyRound s (min fixBTC.size_precision 2) :=
  claim_C4_amended.2.1 fixClient "A" OrderSide.long (1 / 8) fixBTC fixBTCOrder
    (by norm_num [createOrderForAsset, fixClient, fixBTC, fixBTCOrder, pyRound, roundHalfEven])

/-- C9: `_adjust_order_sizes` with a positive factor preserves list length and each
order's symbol, side, order type, price and venue tag, and always returns strictly
positive sizes, replacing a non-positive rounding by `max(0.1 * size, 1e-6)`; with a
non-positive factor it returns the input unchanged; and balancing can shrink an
order below the venue minimum that `_create_basket_orders` enforced. -/
theorem claim_C9_adjust_frame :
    (∀ (orders : List Order) (factor : ℚ), 0 < factor →
      (adjustOrderSizes orders factor).length = orders.length ∧
      (∀ i (h : i < orders.length) (h2 : i < (adjustOrderSizes orders factor).length),
        ((adjustOrderSizes orders factor).get ⟨i, h2⟩).symbol = (orders.get ⟨i, h⟩).symbol ∧
        ((adjustOrderSizes orders factor).get ⟨i, h2⟩).side = (orders.get ⟨i, h⟩).side ∧
        ((adjustOrderSizes orders factor).get ⟨i, h2⟩).order_type
            = (orders.get ⟨i, h⟩).order_type ∧
        ((adjustOrderSizes orders factor).get ⟨i, h2⟩).price = (orders.get ⟨i, h⟩).price ∧
        ((adjustOrderSizes orders factor).get ⟨i, h2⟩).exchange
            = (orders.get ⟨i, h⟩).exchange ∧
        0 < ((adjustOrderSizes orders factor).get ⟨i, h2⟩).size ∧
        (pyRound ((orders.get ⟨i, h⟩).size * factor) 6 ≤ 0 →
          ((adjustOrderSizes orders factor).get ⟨i, h2⟩).size
            = max ((orders.get ⟨i, h⟩).size * (1 / 10)) (1 / 1000000)))) ∧
    (∀ (orders : List Order) (factor : ℚ), factor ≤ 0 →
      adjustOrderSizes orders factor = orders) ∧
    (∃ (a : Asset) (o o2 : Order) (f : ℚ), 0 < f ∧
      createOrderForAsset fixClient "A" OrderSide.long 1 a = some o ∧
      a.min_size ≤ o.size ∧
      adjustOrderSizes [o] f = [o2] ∧ o2.size < a.min_size) := by
  refine ⟨?_, ?_, ?_⟩
  · intro orders factor hf
    rw [adjustOrderSizes, if_neg (not_le.mpr hf)]
    refine ⟨List.length_map _ _, ?_⟩
    intro i h h2
    rw [List.get_map]
    refine ⟨rfl, rfl, rfl, rfl, rfl, ?_, ?_⟩
    · by_cases hc : pyRound ((orders.get ⟨i, h⟩).size * factor) 6 ≤ 0
      · simp only [hc, if_true]
        exact lt_of_lt_of_le (by norm_num) (le_max_right _ _)
      · simp only [hc, if_false]
        exact lt_of_not_le hc
    · intro hc
      simp only [hc, if_true]
  · intro orders factor hf
    rw [adjustOrderSizes, if_pos hf]
  · refine ⟨fixSOL, fixSOLOrder, fixSOLSmall, 1 / 100, by norm_num, ?_, ?_, ?_, ?_⟩
    · norm_num [createOrderForAsset, fixClient, fixSOL, fixSOLOrder, pyRound, roundHalfEven]
    · norm_num [fixSOL, fixSOLOrder]
    · norm_num [adjustOrderSizes, fixSOLOrder, fixSOLSmall, pyRound, roundHalfEven]
    · norm_num [fixSOL, fixSOLSmall]

/-- C9 (witness): the frame property applied at a concrete list and factor. -/
theorem claim_C9_witness :
    adjustOrderSizes [fixSOLOrder] (-1) = [fixSOLOrder] ∧
      (adjustOrderSizes [fixSOLOrder] (1 / 100)).length = 1 :=
  ⟨claim_C9_adjust_frame.2.1 [fixSOLOrder] (-1) (by norm_num),
   (claim_C9_adjust_frame.1 [fixSOLOrder] (1 / 100) (by norm_num)).1⟩

/-- C8: an exception raised anywhere in the staged `try` body of `run_cycle` never
propagates: the cycle logs the error and its stack trace, makes one best-effort
`close_all_positions` attempt (whose own failure is only logged), and the cycle
still ends with the standard inter-cycle wait. -/
theorem claim_C8_cycle_error_containment :
    ∀ (env : CycleEnv) (e : String), env.body = Except.error e →
      BotAction.emergencyCloseAll ∈ runCycle env ∧
      BotAction.logStackTrace e ∈ runCycle env ∧
      (runCycle env).getLast? = some BotAction.interCycleWait ∧
      (∀ ce, env.emergencyClose = Except.error ce →
        BotAction.logCleanupFailed ce ∈ runCycle env) := by
  intro env e h
  unfold runCycle
  rw [h]
  cases henv : env.emergencyClose with
  | ok u => simp
  | error ce => simp

/-- The cycle environment of the C8 witness: the staged body raises `"boom"` and
the emergency close itself raises `"cleanupfail"`. -/
def fixEnv : CycleEnv := ⟨Except.error "boom", Except.error "cleanupfail"⟩

/-- C8 (witness): the containment applied to a concrete doubly-failing cycle. -/
theorem claim_C8_witness :
    BotAction.emergencyCloseAll ∈ runCycle fixEnv ∧
      BotAction.logCleanupFailed "cleanupfail" ∈ runCycle fixEnv :=
  ⟨(claim_C8_cycle_error_containment fixEnv "boom" rfl).1,
   (claim_C8_cycle_error_containment fixEnv "boom" rfl).2.2.2 "cleanupfail" rfl⟩

/-- C10: an order whose venue tag is absent or unknown is routed to the FIRST
client when any client exists — `execute_basket` submits it there and
`_calculate_basket_delta` prices it there — and only with an empty client list is
the order skipped. -/
theorem claim_C10_unknown_tag_first_client :
    ∀ (pm : PortfolioManager) (o : Order),
      (o.exchange = none ∨ ∃ ex, o.exchange = some ex ∧ clientsMap pm.clients ex = none) →
      (pm.clients = [] →
        getClientForOrder pm o = none ∧
        (∀ side exs d, executeBasket pm ⟨side, exs, [o], d⟩ = []) ∧
        calculateBasketDelta pm [o] = 0) ∧
      (∀ c0 rest, pm.clients = c0 :: rest →
        getClientForOrder pm o = some c0 ∧
        (∀ side exs d res, c0.placeOrder o = some res →
          executeBasket pm ⟨side, exs, [o], d⟩ =
            [⟨c0.name, res.symbol, res.side, res.size, res.filled_price,
              res.filled_price, 0, 1, none⟩]) ∧
        (∀ p, c0.getCurrentPrice o.symbol = some p →
          calculateBasketDelta pm [o] =
            (if o.side = OrderSide.short then -(o.size * p) else o.size * p))) := by
  intro pm o h
  have hg : getClientForOrder pm o = pm.clients.head? := by
    rcases h with hnone | ⟨ex, hex, hmap⟩
    · simp [getClientForOrder, hnone]
    · simp only [getClientForOrder, hex, hmap]
      split_ifs <;> rfl
  constructor
  · intro hc
    rw [hc] at hg
    refine ⟨hg, ?_, ?_⟩
    · intro side exs d
      simp [executeBasket, hg]
    · simp [calculateBasketDelta, orderDeltaContribution, hg]
  · intro c0 rest hc
    rw [hc] at hg
    refine ⟨hg, ?_, ?_⟩
    · intro side exs d res hres
      simp [executeBasket, hg, hres]
    · intro p hp
      simp [calculateBasketDelta, orderDeltaContribution, hg, hp]

/-- An order carrying no venue tag at all. -/
def fixNoTag : Order := ⟨"BTC_USDC_PERP", OrderSide.long, OrderType.market, 1, none, 1, none⟩

/-- C10 (witness): the untagged order resolves to the single fixture client and its
delta is priced through that client's feed. -/
theorem claim_C10_witness :
    getClientForOrder fixPM fixNoTag = some fixClient ∧
      calculateBasketDelta fixPM [fixNoTag] = 1 := by
  have h := claim_C10_unknown_tag_first_client fixPM fixNoTag (Or.inl rfl)
  refine ⟨((h.2 fixClient [] rfl)).1, ?_⟩
  have hd := ((h.2 fixClient [] rfl)).2.2 1 rfl
  simpa using hd

/-! ### Balancing-loop lemmas and claim C1 -/

/-- The balancing loop performs at most `fuel` additional attempts. -/
theorem balanceLoop_att_le (pm : PortfolioManager) (tol : ℚ) :
    ∀ (fuel : ℕ) (s : LoopState), (balanceLoop pm tol fuel s).att ≤ s.att + fuel := by
  intro fuel
  induction fuel with
  | zero => intro s; simp [balanceLoop]
  | succ n ih =>
      intro s
      simp only [balanceLoop]
      split_ifs with h1 h2 h3
      · omega
      · have h := ih ⟨adjustOrderSizes s.lo (|s.sd| / |s.ld|), s.so,
            calculateBasketDelta pm (adjustOrderSizes s.lo (|s.sd| / |s.ld|)),
            calculateBasketDelta pm s.so, s.att + 1⟩
        dsimp only at h
        omega
      · have h := ih ⟨s.lo, adjustOrderSizes s.so (|s.ld| / |s.sd|),
            calculateBasketDelta pm s.lo,
            calculateBasketDelta pm (adjustOrderSizes s.so (|s.ld| / |s.sd|)), s.att + 1⟩
        dsimp only at h
        omega
      · omega

/-- The balancing loop can stop in only three ways: the residual is within
tolerance, all `fuel` attempts were used, or one of the deltas fell below the
`1e-9` numeric-zero guard. -/
theorem balanceLoop_exit (pm : PortfolioManager) (tol : ℚ) :
    ∀ (fuel : ℕ) (s : LoopState),
      |(balanceLoop pm tol fuel s).ld + (balanceLoop pm tol fuel s).sd| ≤ tol ∨
      (balanceLoop pm tol fuel s).att = s.att + fuel ∨
      |(balanceLoop pm tol fuel s).ld| < 1 / 1000000000 ∨
      |(balanceLoop pm tol fuel s).sd| < 1 / 1000000000 := by
  intro fuel
  induction fuel with
  | zero => intro s; right; left; simp [balanceLoop]
  | succ n ih =>
      intro s
      simp only [balanceLoop]
      split_ifs with h1 h2 h3
      · rcases h2 with h | h
        · right; right; left; exact h
        · right; right; right; exact h
      · rcases ih ⟨adjustOrderSizes s.lo (|s.sd| / |s.ld|), s.so,
            calculateBasketDelta pm (adjustOrderSizes s.lo (|s.sd| / |s.ld|)),
            calculateBasketDelta pm s.so, s.att + 1⟩ with h | h | h | h
        · left; exact h
        · right; left; rw [h]; dsimp only; omega
        · right; right; left; exact h
        · right; right; right; exact h
      · rcases ih ⟨s.lo, adjustOrderSizes s.so (|s.ld| / |s.sd|),
            calculateBasketDelta pm s.lo,
            calculateBasketDelta pm (adjustOrderSizes s.so (|s.ld| / |s.sd|)), s.att + 1⟩
            with h | h | h | h
        · left; exact h
        · right; left; rw [h]; dsimp only; omega
        · right; right; left; exact h
        · right; right; right; exact h
      · left; exact not_lt.mp h1

/-- When the loop body would break at once (residual above tolerance but one
delta already numerically zero), the loop returns its input state. -/
theorem balanceLoop_break (pm : PortfolioManager) (tol : ℚ) (fuel : ℕ) (s : LoopState)
    (h1 : tol < |s.ld + s.sd|)
    (h2 : |s.ld| < 1 / 1000000000 ∨ |s.sd| < 1 / 1000000000) :
    balanceLoop pm tol fuel s = s := by
  cases fuel with
  | zero => rfl
  | succ n => simp only [balanceLoop]; rw [if_pos h1, if_pos h2]

/-- The long order `_create_basket_orders` would produce for `$10` of BTC
exposure at price `$1` on venue `"A"`. -/
def fixLongOrder : Order :=
  ⟨"BTC_USDC_PERP", OrderSide.long, OrderType.market, 10, none, 1, some "A"⟩

/-- A short order whose delta magnitude (`1e-13` at price `$1`) is far below the
loop's `1e-9` numeric-zero guard. -/
def fixTinyShort : Order :=
  ⟨"ETH_USDC_PERP", OrderSide.short, OrderType.market, 1 / 10000000000000, none, 1, some "A"⟩

/-- C1 (counterexample): with both baskets non-empty and every price `$1`
(nonzero), `_balance_baskets` exits through the `1e-9` numeric-zero break after
ZERO scaling attempts while the residual (`≈ $10`) still exceeds the tolerance
`0.5` — so "either `|longDelta + shortDelta| <= tolerance` or exactly 5 scaling
attempts were performed" is false. -/
theorem claim_C1_counterexample :
    ¬ (|(balanceBaskets fixPM [fixLongOrder] [fixTinyShort] (1 / 2)).longDelta +
          (balanceBaskets fixPM [fixLongOrder] [fixTinyShort] (1 / 2)).shortDelta| ≤ 1 / 2 ∨
        (balanceBaskets fixPM [fixLongOrder] [fixTinyShort] (1 / 2)).attempts = 5) := by
  have hld : calculateBasketDelta fixPM [fixLongOrder] = 10 := by
    simp [calculateBasketDelta, orderDeltaContribution, getClientForOrder, clientsMap,
      fixPM, fixClient, fixLongOrder]
  have hsd : calculateBasketDelta fixPM [fixTinyShort] = -(1 / 10000000000000) := by
    simp [calculateBasketDelta, orderDeltaContribution, getClientForOrder, clientsMap,
      fixPM, fixClient, fixTinyShort]
  have habs : ((10 : ℚ) + -(1 / 10000000000000)) = 99999999999999 / 10000000000000 := by
    norm_num
  have hb : balanceBaskets fixPM [fixLongOrder] [fixTinyShort] (1 / 2) =
      ⟨[fixLongOrder], [fixTinyShort], 10, -(1 / 10000000000000), 0,
        decide ((1 : ℚ) / 2 < |(10 : ℚ) + -(1 / 10000000000000)|)⟩ := by
    simp only [balanceBaskets, hld, hsd]
    rw [if_neg (by simp)]
    rw [balanceLoop_break _ _ _ _
      (by rw [habs, abs_of_pos (by norm_num)]; norm_num)
      (Or.inr (by rw [abs_neg, abs_of_pos (by norm_num)]; norm_num))]
  rw [hb]
  simp only [not_or]
  constructor
  · rw [habs, abs_of_pos (by norm_num)]; norm_num
  · norm_num

/-- C1 (amended): for non-empty long and short baskets, after `_balance_baskets`
returns either the residual is within tolerance, or the residual is logged and
the loop stopped because exactly 5 scaling attempts elapsed OR one of the deltas
fell below the `1e-9` numeric-zero guard (which can happen after as few as 0
attempts); at most 5 attempts are ever performed. -/
theorem claim_C1_amended :
    ∀ (pm : PortfolioManager) (lo so : List Order), lo ≠ [] → so ≠ [] →
      (balanceBaskets pm lo so (1 / 2)).attempts ≤ 5 ∧
      (|(balanceBaskets pm lo so (1 / 2)).longDelta +
          (balanceBaskets pm lo so (1 / 2)).shortDelta| ≤ 1 / 2 ∨
        ((balanceBaskets pm lo so (1 / 2)).loggedResidual = true ∧
          ((balanceBaskets pm lo so (1 / 2)).attempts = 5 ∨
            |(balanceBaskets pm lo so (1 / 2)).longDelta| < 1 / 1000000000 ∨
            |(balanceBaskets pm lo so (1 / 2)).shortDelta| < 1 / 1000000000))) := by
  intro pm lo so hlo hso
  have hcond : ¬(lo = [] ∨ so = []) := by simp [hlo, hso]
  simp only [balanceBaskets, if_neg hcond]
  constructor
  · simpa using balanceLoop_att_le pm (1 / 2) 5
      ⟨lo, so, calculateBasketDelta pm lo, calculateBasketDelta pm so, 0⟩
  · have hexit := balanceLoop_exit pm (1 / 2) 5
      ⟨lo, so, calculateBasketDelta pm lo, calculateBasketDelta pm so, 0⟩
    by_cases hres :
        |(balanceLoop pm (1 / 2) 5
            ⟨lo, so, calculateBasketDelta pm lo, calculateBasketDelta pm so, 0⟩).ld +
          (balanceLoop pm (1 / 2) 5
            ⟨lo, so, calculateBasketDelta pm lo, calculateBasketDelta pm so, 0⟩).sd| ≤ 1 / 2
    · left; exact hres
    · right
      refine ⟨decide_eq_true (not_le.mp hres), ?_⟩
      rcases hexit with h | h | h | h
      · exact absurd h hres
      · left; simpa using h
      · right; left; exact h
      · right; right; exact h

/-- C1 (witness): the amended statement applied to the concrete break run. -/
theorem claim_C1_witness :
    (balanceBaskets fixPM [fixLongOrder] [fixTinyShort] (1 / 2)).attempts ≤ 5 ∧
      (|(balanceBaskets fixPM [fixLongOrder] [fixTinyShort] (1 / 2)).longDelta +
          (balanceBaskets fixPM [fixLongOrder] [fixTinyShort] (1 / 2)).shortDelta| ≤ 1 / 2 ∨
        ((balanceBaskets fixPM [fixLongOrder] [fixTinyShort] (1 / 2)).loggedResidual = true ∧
          ((balanceBaskets fixPM [fixLongOrder] [fixTinyShort] (1 / 2)).attempts = 5 ∨
            |(balanceBaskets fixPM [fixLongOrder] [fixTinyShort] (1 / 2)).longDelta|
              < 1 / 1000000000 ∨
            |(balanceBaskets fixPM [fixLongOrder] [fixTinyShort] (1 / 2)).shortDelta|
              < 1 / 1000000000))) :=
  claim_C1_amended fixPM [fixLongOrder] [fixTinyShort] (by simp) (by simp)

/-! ### Basket-construction lemmas and claims C2, C5 -/

/-- Every order `createOrderForAsset` emits carries its asset's symbol and a size
at or above the asset's minimum (the post-rounding `size < min_size` gate). -/
theorem createOrderForAsset_minSize (client : ExchangeClient) (exName : String)
    (side : OrderSide) (cap : ℚ) (a : Asset) (o : Order)
    (h : createOrderForAsset client exName side cap a = some o) :
    o.symbol = a.symbol ∧ a.min_size ≤ o.size := by
  cases hp : client.getCurrentPrice a.symbol with
  | none => rw [createOrderForAsset, hp] at h; cases h
  | some price =>
      simp only [createOrderForAsset, hp] at h
      split_ifs at h <;>
        first
        | exact Option.noConfusion h
        | (rw [← Option.some.inj h]; exact ⟨rfl, not_lt.mp (by assumption)⟩)

/-- Every asset selected for a venue by `_create_basket_orders` escapes the
excluded-symbol set, on the preselected path (its filter) and on the whitelist
path (its filter plus the sampling oracle drawing from the filtered list). -/
theorem selectedAssets_not_excluded (client : ExchangeClient) (ex : String)
    (pre : Option (List (String × List Asset))) (excl : List String)
    (rand : String → List Asset → List Asset)
    (hrand : ∀ e l a, a ∈ rand e l → a ∈ l) :
    ∀ a ∈ selectedAssetsForExchange client ex pre excl rand, a.symbol ∉ excl := by
  intro a ha
  cases hpre : preselectedFor pre ex with
  | some assets =>
      rw [selectedAssetsForExchange, hpre] at ha
      rcases of_decide_eq_true (List.mem_filter.mp ha).2 with hE | hN
      · subst hE; exact List.not_mem_nil _
      · exact hN
  | none =>
      simp only [selectedAssetsForExchange, hpre] at ha
      cases hav : client.getAvailableAssets with
      | none => rw [hav] at ha; cases ha
      | some avail =>
          simp only [hav] at ha
          split_ifs at ha with h1 h2 h3
          · cases ha
          · cases ha
          · have hmem := hrand ex _ a ha
            exact of_decide_eq_true (List.mem_filter.mp hmem).2
          · cases ha
          · intro hcontra
            exact h2 (by intro hE; rw [hE] at hcontra; exact List.not_mem_nil _ hcontra)

/-- Every order produced by the per-exchange loop of `_create_basket_orders`
originates from `createOrderForAsset` applied, with that venue's per-asset
capital share, to one of the assets actually selected for a venue of the run —
the venue is in the iterated list and its client is the manager's. -/
theorem basketOrders_mem (pm : PortfolioManager) (side : OrderSide) (cap : ℚ)
    (pre : Option (List (String × List Asset))) (excl : List String)
    (rand : String → List Asset → List Asset) :
    ∀ (exs : List String) (orders : List Order),
      basketOrdersForExchanges pm side cap pre excl rand exs = some orders →
      ∀ o ∈ orders, ∃ client ex a,
        ex ∈ exs ∧
        clientsMap pm.clients ex = some client ∧
        a ∈ selectedAssetsForExchange client ex pre excl rand ∧
        createOrderForAsset client ex side
          (cap / ((selectedAssetsForExchange client ex pre excl rand).length : ℚ)) a
          = some o := by
  intro exs
  induction exs with
  | nil =>
      intro orders h o ho
      rw [basketOrdersForExchanges] at h
      obtain rfl := Option.some.inj h
      cases ho
  | cons ex rest ih =>
      intro orders h o ho
      simp only [basketOrdersForExchanges] at h
      cases hcm : clientsMap pm.clients ex with
      | none => rw [hcm] at h; cases h
      | some client =>
          simp only [hcm] at h
          cases hrec : basketOrdersForExchanges pm side cap pre excl rand rest with
          | none => rw [hrec] at h; cases h
          | some os =>
              simp only [hrec] at h
              obtain rfl := Option.some.inj h
              rcases List.mem_append.mp ho with hmem | hmem
              · split_ifs at hmem with hsel
                · cases hmem
                · obtain ⟨a, ha, hco⟩ := List.mem_filterMap.mp hmem
                  exact ⟨client, ex, a, List.mem_cons_self ex rest, hcm, ha, hco⟩
              · obtain ⟨client2, ex2, a, hex, hcm2, ha, hco⟩ := ih os hrec o hmem
                exact ⟨client2, ex2, a, List.mem_cons_of_mem ex hex, hcm2, ha, hco⟩

/-- C2: every order emitted by `_create_basket_orders` satisfies
`order.size >= asset.min_size` for the asset the order was built from: the order
arises from `createOrderForAsset` applied, with its venue's per-asset capital
share, to an asset selected for a venue of the run, carries that asset's symbol,
and its size is at or above that asset's minimum.  Mechanically, a computed size
below twice the venue minimum is raised to exactly twice the minimum, the result
is rounded at the clamped precision `min(size_precision, 2)`, and an order still
below the minimum after rounding is dropped rather than emitted. -/
theorem claim_C2_min_size_enforcement :
    (∀ (client : ExchangeClient) (exName : String) (side : OrderSide) (cap : ℚ)
        (a : Asset) (p : ℚ),
        client.getCurrentPrice a.symbol = some p → p ≠ 0 → cap / p < a.min_size * 2 →
        createOrderForAsset client exName side cap a =
          (if pyRound (a.min_size * 2) (min a.size_precision 2) < a.min_size then none
           else some { symbol := a.symbol, side := side, order_type := OrderType.market,
                       size := pyRound (a.min_size * 2) (min a.size_precision 2),
                       price := none, leverage := 1, exchange := some exName })) ∧
    (∀ (pm : PortfolioManager) (exchanges : List String) (side : OrderSide)
        (totalCapital : ℚ) (pre : Option (List (String × List Asset)))
        (excl : List String) (rand : String → List Asset → List Asset)
        (orders : List Order),
        createBasketOrders pm exchanges side totalCapital pre excl rand = some orders →
        ∀ o ∈ orders, ∃ (client : ExchangeClient) (ex : String) (a : Asset),
          ex ∈ exchanges ∧
          clientsMap pm.clients ex = some client ∧
          a ∈ selectedAssetsForExchange client ex pre excl rand ∧
          createOrderForAsset client ex side
            ((if exchanges = [] then 0 else totalCapital / (exchanges.length : ℚ)) /
              ((selectedAssetsForExchange client ex pre excl rand).length : ℚ)) a
            = some o ∧
          o.symbol = a.symbol ∧ a.min_size ≤ o.size) := by
  constructor
  · intro client exName side cap a p hp hp0 hlt
    simp only [createOrderForAsset, hp, if_neg hp0, if_pos hlt]
  · intro pm exchanges side totalCapital pre excl rand orders h o ho
    simp only [createBasketOrders] at h
    obtain ⟨client, ex, a, hex, hcm, ha, hco⟩ :=
      basketOrders_mem pm side _ pre excl rand exchanges orders h o ho
    obtain ⟨hsym, hsz⟩ := createOrderForAsset_minSize client ex side _ a o hco
    exact ⟨client, ex, a, hex, hcm, ha, hco, hsym, hsz⟩

/-- The long order built from `fixBTC` with `$1` of capital at price `$1`. -/
def fixBTCWhole : Order :=
  ⟨"BTC_USDC_PERP", OrderSide.long, OrderType.market, 1, none, 1, some "A"⟩

/-- C2 (witness): the minimum-size bound, instantiated on a concrete run of
`_create_basket_orders` over the preselected path — the emitted BTC order is tied
back to `fixBTC`, the asset it was built from, on venue `"A"`. -/
theorem claim_C2_witness :
    ∃ (client : ExchangeClient) (ex : String) (a : Asset),
      ex ∈ (["A"] : List String) ∧
      clientsMap fixPM.clients ex = some client ∧
      a ∈ selectedAssetsForExchange client ex (some [("A", [fixBTC])]) [] (fun _ l => l) ∧
      createOrderForAsset client ex OrderSide.long
        ((if (["A"] : List String) = [] then 0
          else 1 / (((["A"] : List String).length : ℕ) : ℚ)) /
          ((selectedAssetsForExchange client ex (some [("A", [fixBTC])]) []
            (fun _ l => l)).length : ℚ)) a
        = some fixBTCWhole ∧
      fixBTCWhole.symbol = a.symbol ∧ a.min_size ≤ fixBTCWhole.size :=
  claim_C2_min_size_enforcement.2 fixPM ["A"] OrderSide.long 1 (some [("A", [fixBTC])])
    [] (fun _ l => l) [fixBTCWhole]
    (by norm_num [createBasketOrders, basketOrdersForExchanges, selectedAssetsForExchange,
      preselectedFor, clientsMap, fixPM, fixClient, fixBTC, fixBTCWhole,
      createOrderForAsset, pyRound, roundHalfEven, List.filterMap_cons])
    fixBTCWhole (by simp)

/-- `_adjust_order_sizes` never changes the symbol sequence of a basket. -/
theorem adjustOrderSizes_symbols (orders : List Order) (factor : ℚ) :
    (adjustOrderSizes orders factor).map Order.symbol = orders.map Order.symbol := by
  unfold adjustOrderSizes
  split_ifs with h
  · rfl
  · rw [List.map_map]; rfl

/-- The balancing loop never changes the symbol sequences of either basket. -/
theorem balanceLoop_symbols (pm : PortfolioManager) (tol : ℚ) :
    ∀ (fuel : ℕ) (s : LoopState),
      (balanceLoop pm tol fuel s).lo.map Order.symbol = s.lo.map Order.symbol ∧
      (balanceLoop pm tol fuel s).so.map Order.symbol = s.so.map Order.symbol := by
  intro fuel
  induction fuel with
  | zero => intro s; exact ⟨rfl, rfl⟩
  | succ n ih =>
      intro s
      simp only [balanceLoop]
      split_ifs with h1 h2 h3
      · exact ⟨rfl, rfl⟩
      · have h := ih ⟨adjustOrderSizes s.lo (|s.sd| / |s.ld|), s.so,
            calculateBasketDelta pm (adjustOrderSizes s.lo (|s.sd| / |s.ld|)),
            calculateBasketDelta pm s.so, s.att + 1⟩
        dsimp only at h
        exact ⟨h.1.trans (adjustOrderSizes_symbols s.lo _), h.2⟩
      · have h := ih ⟨s.lo, adjustOrderSizes s.so (|s.ld| / |s.sd|),
            calculateBasketDelta pm s.lo,
            calculateBasketDelta pm (adjustOrderSizes s.so (|s.ld| / |s.sd|)), s.att + 1⟩
        dsimp only at h
        exact ⟨h.1, h.2.trans (adjustOrderSizes_symbols s.so _)⟩
      · exact ⟨rfl, rfl⟩

/-- `_balance_baskets` never changes the symbol sequences of either basket. -/
theorem balanceBaskets_symbols (pm : PortfolioManager) (lo so : List Order) (tol : ℚ) :
    (balanceBaskets pm lo so tol).longOrders.map Order.symbol = lo.map Order.symbol ∧
    (balanceBaskets pm lo so tol).shortOrders.map Order.symbol = so.map Order.symbol := by
  unfold balanceBaskets
  split_ifs with h
  · exact ⟨rfl, rfl⟩
  · have h2 := balanceLoop_symbols pm tol 5
      ⟨lo, so, calculateBasketDelta pm lo, calculateBasketDelta pm so, 0⟩
    exact h2

/-- Every order emitted by `_create_basket_orders` has a symbol outside the
excluded set. -/
theorem basketOrders_not_excluded (pm : PortfolioManager) (exchanges : List String)
    (side : OrderSide) (totalCapital : ℚ) (pre : Option (List (String × List Asset)))
    (excl : List String) (rand : String → List Asset → List Asset)
    (hrand : ∀ e l a, a ∈ rand e l → a ∈ l) (orders : List Order)
    (h : createBasketOrders pm exchanges side totalCapital pre excl rand = some orders) :
    ∀ o ∈ orders, o.symbol ∉ excl := by
  intro o ho
  simp only [createBasketOrders] at h
  obtain ⟨client, ex, a, hex, hcm, ha, hco⟩ :=
    basketOrders_mem pm side _ pre excl rand exchanges orders h o ho
  have hsym := (createOrderForAsset_minSize client ex side _ a o hco).1
  rw [hsym]
  exact selectedAssets_not_excluded client ex pre excl rand hrand a ha

/-- C5: no symbol appears in both returned baskets of
`create_delta_neutral_portfolio` — the long orders' symbols are excluded when the
short basket is built, on both the preselected path and the allow-list path, and
the balancing step never changes symbols. -/
theorem claim_C5_no_shared_symbols :
    ∀ (pm : PortfolioManager) (longEx shortEx : List String)
      (longMap shortMap : Option (List (String × List Asset))) (cap : ℚ)
      (randL randS : String → List Asset → List Asset)
      (lb sb : PortfolioBasket),
      (∀ e l a, a ∈ randS e l → a ∈ l) →
      createDeltaNeutralPortfolio pm longEx shortEx longMap shortMap cap randL randS
        = some (lb, sb) →
      ∀ s, s ∈ lb.orders.map Order.symbol → s ∉ sb.orders.map Order.symbol := by
  intro pm longEx shortEx longMap shortMap cap randL randS lb sb hrand h s hs hcontra
  simp only [createDeltaNeutralPortfolio] at h
  cases hL : createBasketOrders pm longEx OrderSide.long cap longMap [] randL with
  | none => rw [hL] at h; cases h
  | some longOrders =>
      simp only [hL] at h
      cases hS : createBasketOrders pm shortEx OrderSide.short cap shortMap
          (longOrders.map Order.symbol) randS with
      | none => rw [hS] at h; cases h
      | some shortOrders =>
          simp only [hS] at h
          have hpair := Option.some.inj h
          have e1 := congrArg Prod.fst hpair
          have e2 := congrArg Prod.snd hpair
          dsimp only at e1 e2
          subst e1
          subst e2
          dsimp only at hs hcontra
          rw [(balanceBaskets_symbols pm longOrders shortOrders (1 / 2)).1] at hs
          rw [(balanceBaskets_symbols pm longOrders shortOrders (1 / 2)).2] at hcontra
          obtain ⟨o, ho, rfl⟩ := List.mem_map.mp hcontra
          exact basketOrders_not_excluded pm shortEx OrderSide.short cap shortMap
            (longOrders.map Order.symbol) randS hrand shortOrders hS o ho hs

/-- When the residual is already within tolerance the loop returns its input
state unchanged. -/
theorem balanceLoop_done (pm : PortfolioManager) (tol : ℚ) (fuel : ℕ) (s : LoopState)
    (h : ¬ tol < |s.ld + s.sd|) : balanceLoop pm tol fuel s = s := by
  cases fuel with
  | zero => rfl
  | succ n => simp only [balanceLoop]; rw [if_neg h]

/-- The short order built from `fixETH` with `$1` of capital at price `$1`. -/
def fixETHShort : Order :=
  ⟨"ETH_USDC_PERP", OrderSide.short, OrderType.market, 1, none, 1, some "A"⟩

/-- The long basket of the C5 witness run. -/
def fixLB : PortfolioBasket := ⟨OrderSide.long, ["A"], [fixBTCWhole], 1⟩

/-- The short basket of the C5 witness run. -/
def fixSB : PortfolioBasket := ⟨OrderSide.short, ["A"], [fixETHShort], -1⟩

/-- C5 (witness): a concrete portfolio run in which BTC was preselected for BOTH
sides ends with BTC only in the long basket — the short side was built with BTC
excluded. -/
theorem claim_C5_witness :
    createDeltaNeutralPortfolio fixPM ["A"] ["A"] (some [("A", [fixBTC])])
        (some [("A", [fixBTC, fixETH])]) 1 (fun _ l => l) (fun _ l => l)
      = some (fixLB, fixSB) ∧
    "BTC_USDC_PERP" ∈ fixLB.orders.map Order.symbol ∧
    "BTC_USDC_PERP" ∉ fixSB.orders.map Order.symbol := by
  have hlong : createBasketOrders fixPM ["A"] OrderSide.long 1 (some [("A", [fixBTC])])
      [] (fun _ l => l) = some [fixBTCWhole] := by
    norm_num [createBasketOrders, basketOrdersForExchanges, selectedAssetsForExchange,
      preselectedFor, clientsMap, fixPM, fixClient, fixBTC, fixBTCWhole,
      createOrderForAsset, pyRound, roundHalfEven, List.filterMap_cons]
  have hshort : createBasketOrders fixPM ["A"] OrderSide.short 1
      (some [("A", [fixBTC, fixETH])]) ["BTC_USDC_PERP"] (fun _ l => l)
      = some [fixETHShort] := by
    simp [createBasketOrders, basketOrdersForExchanges, selectedAssetsForExchange,
      preselectedFor, clientsMap, fixPM, fixClient, fixBTC, fixETH, fixETHShort,
      createOrderForAsset, List.filterMap_cons]
    norm_num [pyRound, roundHalfEven]
  have hld : calculateBasketDelta fixPM [fixBTCWhole] = 1 := by
    simp [calculateBasketDelta, orderDeltaContribution, getClientForOrder, clientsMap,
      fixPM, fixClient, fixBTCWhole]
  have hsd : calculateBasketDelta fixPM [fixETHShort] = -1 := by
    simp [calculateBasketDelta, orderDeltaContribution, getClientForOrder, clientsMap,
      fixPM, fixClient, fixETHShort]
  have hbal : balanceBaskets fixPM [fixBTCWhole] [fixETHShort] (1 / 2) =
      ⟨[fixBTCWhole], [fixETHShort], 1, -1, 0,
        decide ((1 : ℚ) / 2 < |(1 : ℚ) + -1|)⟩ := by
    simp only [balanceBaskets, hld, hsd]
    rw [if_neg (by simp)]
    rw [balanceLoop_done _ _ _ _
      (by rw [show ((1 : ℚ) + -1) = 0 by norm_num, abs_zero]; norm_num)]
  have hport : createDeltaNeutralPortfolio fixPM ["A"] ["A"] (some [("A", [fixBTC])])
      (some [("A", [fixBTC, fixETH])]) 1 (fun _ l => l) (fun _ l => l)
      = some (fixLB, fixSB) := by
    simp only [createDeltaNeutralPortfolio, hlong,
      show [fixBTCWhole].map Order.symbol = ["BTC_USDC_PERP"] by simp [fixBTCWhole],
      hshort, hbal]
    simp [fixLB, fixSB]
  refine ⟨hport, by simp [fixLB, fixBTCWhole], ?_⟩
  exact claim_C5_no_shared_symbols fixPM ["A"] ["A"] (some [("A", [fixBTC])])
    (some [("A", [fixBTC, fixETH])]) 1 (fun _ l => l) (fun _ l => l) fixLB fixSB
    (fun _ _ _ hmem => hmem) hport "BTC_USDC_PERP" (by simp [fixLB, fixBTCWhole])

/-! ### Pair-assignment lemmas and claim C3 -/

/-- All symbols occurring in a venue→assets selection map, venue by venue. -/
def symbolsOfSelection : List (String × List Asset) → List String
  | [] => []
  | kv :: rest => kv.2.map Asset.symbol ++ symbolsOfSelection rest

/-- The keys of a venue→assets selection map. -/
def keysOf (m : List (String × List Asset)) : List String := m.map Prod.fst

/-- `updateAssoc` preserves the key sequence. -/
theorem updateAssoc_keys (m : List (String × List Asset)) (k : String) (v : List Asset) :
    keysOf (updateAssoc m k v) = keysOf m := by
  induction m with
  | nil => rfl
  | cons kv rest ih =>
      simp only [updateAssoc, keysOf, List.map_cons] at *
      by_cases h : kv.1 = k
      · simp [h, ih]
      · simp [h, ih]

/-- `updateAssoc` is the identity when the key is absent. -/
theorem updateAssoc_not_mem (m : List (String × List Asset)) (k : String)
    (v : List Asset) (h : k ∉ keysOf m) : updateAssoc m k v = m := by
  induction m with
  | nil => rfl
  | cons kv rest ih =>
      simp only [keysOf, List.map_cons, List.mem_cons, not_or] at h
      simp only [updateAssoc, List.map_cons]
      rw [if_neg (fun he => h.1 he.symm)]
      have := ih (by simpa [keysOf] using h.2)
      simp only [updateAssoc] at this
      rw [this]

/-- Appending one asset to the looked-up slot of a nodup-keyed map adds exactly
that asset's symbol to the map's symbol multiset. -/
theorem updateAssoc_symbols_perm (k : String) (a : Asset) :
    ∀ (m : List (String × List Asset)) (ll : List Asset),
      (keysOf m).Nodup → m.lookup k = some ll →
      (symbolsOfSelection (updateAssoc m k (ll ++ [a]))).Perm
        (a.symbol :: symbolsOfSelection m) := by
  intro m
  induction m with
  | nil => intro ll _ h; cases h
  | cons kv rest ih =>
      obtain ⟨k0, v0⟩ := kv
      intro ll hnd hl
      simp only [List.lookup] at hl
      by_cases hk : k = k0
      · subst hk
        simp only [beq_self_eq_true] at hl
        have hvl : v0 = ll := Option.some.inj hl
        subst hvl
        have hnd' : (k :: keysOf rest).Nodup := hnd
        have hnotin : k ∉ keysOf rest := (List.nodup_cons.mp hnd').1
        have hupd : updateAssoc ((k, v0) :: rest) k (v0 ++ [a])
            = (k, v0 ++ [a]) :: rest := by
          have ht := updateAssoc_not_mem rest k (v0 ++ [a]) hnotin
          simp only [updateAssoc, List.map_cons] at ht ⊢
          simp [ht]
        rw [hupd]
        simp only [symbolsOfSelection, List.map_append, List.map_cons, List.map_nil]
        rw [List.append_assoc]
        exact List.perm_middle
      · simp only [beq_false_of_ne hk] at hl
        have hnd' : (k0 :: keysOf rest).Nodup := hnd
        have hnd2 : (keysOf rest).Nodup := (List.nodup_cons.mp hnd').2
        have hperm := ih ll hnd2 hl
        simp only [updateAssoc, List.map_cons]
        rw [if_neg (fun he => hk he.symm)]
        simp only [symbolsOfSelection]
        have hstep : (symbolsOfSelection (updateAssoc rest k (ll ++ [a]))).Perm
            (a.symbol :: symbolsOfSelection rest) := by
          have := hperm
          simpa [updateAssoc] using this
        exact (List.Perm.append_left (v0.map Asset.symbol) hstep).trans List.perm_middle

/-- Invariant of the greedy pair-assignment walk: starting from maps whose symbol
lists are duplicate-free and covered by the used sets, the walk keeps both symbol
lists duplicate-free. -/
theorem assignPairs_invariant (target : ℕ) :
    ∀ (pairs : List AssetPair) (lm sm : List (String × List Asset))
      (usedL usedS : List String) (lm2 sm2 : List (String × List Asset)),
      (keysOf lm).Nodup → (keysOf sm).Nodup →
      (symbolsOfSelection lm).Nodup → (symbolsOfSelection sm).Nodup →
      (∀ s ∈ symbolsOfSelection lm, s ∈ usedL) →
      (∀ s ∈ symbolsOfSelection sm, s ∈ usedS) →
      assignPairs target pairs lm sm usedL usedS = some (lm2, sm2) →
      (symbolsOfSelection lm2).Nodup ∧ (symbolsOfSelection sm2).Nodup := by
  intro pairs
  induction pairs with
  | nil =>
      intro lm sm usedL usedS lm2 sm2 k1 k2 n1 n2 m1 m2 h
      rw [assignPairs] at h
      have hpair := Option.some.inj h
      have e1 := congrArg Prod.fst hpair
      have e2 := congrArg Prod.snd hpair
      dsimp only at e1 e2
      subst e1; subst e2
      exact ⟨n1, n2⟩
  | cons p rest ih =>
      intro lm sm usedL usedS lm2 sm2 k1 k2 n1 n2 m1 m2 h
      simp only [assignPairs] at h
      split_ifs at h with hL hS
      · exact ih lm sm usedL usedS lm2 sm2 k1 k2 n1 n2 m1 m2 h
      · exact ih lm sm usedL usedS lm2 sm2 k1 k2 n1 n2 m1 m2 h
      · cases hlm : lm.lookup p.long_exchange with
        | none => rw [hlm] at h; cases h
        | some ll =>
            cases hsm : sm.lookup p.short_exchange with
            | none => rw [hlm, hsm] at h; cases h
            | some sl =>
                simp only [hlm, hsm] at h
                split_ifs at h with hc1 hc2
                · exact ih lm sm usedL usedS lm2 sm2 k1 k2 n1 n2 m1 m2 h
                · exact ih lm sm usedL usedS lm2 sm2 k1 k2 n1 n2 m1 m2 h
                · have hpermL := updateAssoc_symbols_perm p.long_exchange p.long_asset
                    lm ll k1 hlm
                  have hpermS := updateAssoc_symbols_perm p.short_exchange p.short_asset
                    sm sl k2 hsm
                  have hnotL : p.long_asset.symbol ∉ symbolsOfSelection lm :=
                    fun hc => hL (m1 _ hc)
                  have hnotS : p.short_asset.symbol ∉ symbolsOfSelection sm :=
                    fun hc => hS (m2 _ hc)
                  refine ih _ _ _ _ lm2 sm2 ?_ ?_ ?_ ?_ ?_ ?_ h
                  · rw [updateAssoc_keys]; exact k1
                  · rw [updateAssoc_keys]; exact k2
                  · exact hpermL.nodup_iff.mpr (List.nodup_cons.mpr ⟨hnotL, n1⟩)
                  · exact hpermS.nodup_iff.mpr (List.nodup_cons.mpr ⟨hnotS, n2⟩)
                  · intro s hs
                    rcases List.mem_cons.mp (hpermL.mem_iff.mp hs) with hc | hc
                    · exact List.mem_cons.mpr (Or.inl hc)
                    · exact List.mem_cons.mpr (Or.inr (m1 _ hc))
                  · intro s hs
                    rcases List.mem_cons.mp (hpermS.mem_iff.mp hs) with hc | hc
                    · exact List.mem_cons.mpr (Or.inl hc)
                    · exact List.mem_cons.mpr (Or.inr (m2 _ hc))

/-- The per-venue empty initialisation carries no symbols. -/
theorem symbolsOfSelection_init (l : List String) :
    symbolsOfSelection (l.map (fun ex => (ex, ([] : List Asset)))) = [] := by
  induction l with
  | nil => rfl
  | cons ex rest ih => simpa [symbolsOfSelection] using ih

/-- The ranked pair that correlates BTC on venue `"A"` with BTC on venue `"B"` —
exactly what `find_correlated_pairs_fast` produces when the same instrument trades
on both venue groups (its correlation with itself is at the 0.95 level). -/
def fixPairBTC : AssetPair := ⟨fixBTC, "A", fixBTC, "B", 95 / 100⟩

/-- C3 (counterexample): `select_best_correlated_assets` assigns the SAME symbol
(`BTC_USDC_PERP`) to a long-venue slot and a short-venue slot in one run: the
used-symbol sets of the two sides are tracked separately and never cross-checked. -/
theorem claim_C3_counterexample :
    selectBestCorrelatedAssets [] ["A"] ["B"] 3 [fixPairBTC]
        (fun _ l => l) (fun _ l => l)
      = some ([("A", [fixBTC])], [("B", [fixBTC])]) ∧
    "BTC_USDC_PERP" ∈ symbolsOfSelection [("A", [fixBTC])] ∧
    "BTC_USDC_PERP" ∈ symbolsOfSelection [("B", [fixBTC])] := by
  refine ⟨?_, by simp [symbolsOfSelection, fixBTC], by simp [symbolsOfSelection, fixBTC]⟩
  simp [selectBestCorrelatedAssets, assignPairs, updateAssoc, fixPairBTC, fixBTC,
    List.lookup]

/-- C3 (amended): the greedy assignment of `select_best_correlated_assets` never
assigns the same symbol to two long-venue slots, nor to two short-venue slots
(per-side uniqueness); the same symbol MAY however appear on both a long slot and
a short slot, and the random fallback path enforces no symbol uniqueness at all. -/
theorem claim_C3_amended :
    ∀ (clients : List ExchangeClient) (longEx shortEx : List String) (target : ℕ)
      (pairs : List AssetPair) (randL randS : String → List Asset → List Asset)
      (lm sm : List (String × List Asset)),
      pairs ≠ [] →
      selectBestCorrelatedAssets clients longEx shortEx target pairs randL randS
        = some (lm, sm) →
      (symbolsOfSelection lm).Nodup ∧ (symbolsOfSelection sm).Nodup := by
  intro clients longEx shortEx target pairs randL randS lm sm hp h
  rw [selectBestCorrelatedAssets, if_neg hp] at h
  refine assignPairs_invariant target pairs _ _ [] [] lm sm ?_ ?_ ?_ ?_ ?_ ?_ h
  · have hkeys : keysOf (longEx.dedup.map (fun ex => (ex, ([] : List Asset))))
        = longEx.dedup := by
      simp [keysOf, List.map_map, Function.comp_def]
    rw [hkeys]; exact longEx.nodup_dedup
  · have hkeys : keysOf (shortEx.dedup.map (fun ex => (ex, ([] : List Asset))))
        = shortEx.dedup := by
      simp [keysOf, List.map_map, Function.comp_def]
    rw [hkeys]; exact shortEx.nodup_dedup
  · rw [symbolsOfSelection_init]; exact List.nodup_nil
  · rw [symbolsOfSelection_init]; exact List.nodup_nil
  · intro s hs; rw [symbolsOfSelection_init] at hs; cases hs
  · intro s hs; rw [symbolsOfSelection_init] at hs; cases hs

/-- C3 (witness): per-side uniqueness on the concrete BTC↔BTC run. -/
theorem claim_C3_witness :
    (symbolsOfSelection [("A", [fixBTC])]).Nodup ∧
      (symbolsOfSelection [("B", [fixBTC])]).Nodup :=
  claim_C3_amended [] ["A"] ["B"] 3 [fixPairBTC] (fun _ l => l) (fun _ l => l)
    [("A", [fixBTC])] [("B", [fixBTC])] (by simp)
    (by simp [selectBestCorrelatedAssets, assignPairs, updateAssoc, fixPairBTC, fixBTC,
      List.lookup])

/-! ### Correlation lemmas and claim C6 -/

/-- Zipping a list with itself turns the Pearson numerator into the sum of
squared deviations. -/
theorem zip_self_sq (l : List ℚ) (m : ℚ) :
    ((l.zip l).map (fun p => (p.1 - m) * (p.2 - m))).sum
      = (l.map (fun x => (x - m) ^ 2)).sum := by
  induction l with
  | nil => rfl
  | cons x xs ih =>
      simp only [List.zip_cons_cons, List.map_cons, List.sum_cons, ih]
      ring_nf

/-- A sum of squared deviations is non-negative. -/
theorem sumSqDev_nonneg (l : List ℚ) : 0 ≤ sumSqDev l := by
  unfold sumSqDev
  apply List.sum_nonneg
  intro x hx
  obtain ⟨y, _, rfl⟩ := List.mem_map.mp hx
  positivity

/-- C6: the Pearson correlation of a price series with itself is exactly 1 when
its returns (at least 2 of them) have a nonzero sum of squared deviations, and 0
when the deviation sum vanishes or fewer than 2 return points exist. -/
theorem claim_C6_self_correlation :
    ∀ (d : PriceData), 3 ≤ d.prices.length →
      (2 ≤ (calcReturns d.prices).length → sumSqDev (calcReturns d.prices) ≠ 0 →
        calculateCorrelation d d = 1) ∧
      ((calcReturns d.prices).length < 2 ∨ sumSqDev (calcReturns d.prices) = 0 →
        calculateCorrelation d d = 0) := by
  intro d _
  constructor
  · intro h2 hS
    have hne : ¬(d.prices = [] ∨ d.prices = []) := by
      rw [or_self]
      intro he
      rw [he] at h2
      simp [calcReturns] at h2
    have hlen : ¬((calcReturns d.prices).length < 2 ∨ (calcReturns d.prices).length < 2) := by
      rw [or_self]; omega
    have hn0 : ¬((calcReturns d.prices).length = 0) := by omega
    have hnq : (0 : ℚ) < ((calcReturns d.prices).length : ℚ) := by
      exact_mod_cast Nat.pos_of_ne_zero hn0
    have hq : (0 : ℚ) < sumSqDev (calcReturns d.prices) / ((calcReturns d.prices).length : ℚ) :=
      div_pos (lt_of_le_of_ne (sumSqDev_nonneg _) (Ne.symm hS)) hnq
    have hstd : ¬(Real.sqrt (((sumSqDev (calcReturns d.prices) /
          ((calcReturns d.prices).length : ℚ) : ℚ) : ℝ)) = 0 ∨
        Real.sqrt (((sumSqDev (calcReturns d.prices) /
          ((calcReturns d.prices).length : ℚ) : ℚ) : ℝ)) = 0) := by
      rw [or_self]
      intro hzero
      have := Real.sqrt_pos.mpr (show (0 : ℝ) <
        ((sumSqDev (calcReturns d.prices) / ((calcReturns d.prices).length : ℚ) : ℚ) : ℝ)
        from by exact_mod_cast hq)
      rw [hzero] at this
      exact lt_irrefl 0 this
    simp only [calculateCorrelation, Nat.min_self, List.take_length,
      if_neg hne, if_neg hlen, if_neg hn0]
    rw [if_neg (by simpa [sumSqDev] using hstd)]
    have hnum : (List.map (fun p => (p.1 - listMean (calcReturns d.prices)) *
          (p.2 - listMean (calcReturns d.prices)))
        ((calcReturns d.prices).zip (calcReturns d.prices))).sum
        = sumSqDev (calcReturns d.prices) := by
      rw [zip_self_sq]; rfl
    have hsq : Real.sqrt (((sumSqDev (calcReturns d.prices) /
          ((calcReturns d.prices).length : ℚ) : ℚ) : ℝ)) *
        Real.sqrt (((sumSqDev (calcReturns d.prices) /
          ((calcReturns d.prices).length : ℚ) : ℚ) : ℝ)) =
        ((sumSqDev (calcReturns d.prices) / ((calcReturns d.prices).length : ℚ) : ℚ) : ℝ) :=
      Real.mul_self_sqrt (by exact_mod_cast hq.le)
    rw [hnum, mul_assoc, hsq]
    have hScast : ((sumSqDev (calcReturns d.prices) : ℚ) : ℝ) ≠ 0 := by
      exact_mod_cast hS
    have hncast : (((calcReturns d.prices).length : ℕ) : ℝ) ≠ 0 := by
      exact_mod_cast hn0
    push_cast
    field_simp
  · intro hOr
    by_cases hp : d.prices = []
    · simp only [calculateCorrelation, if_pos (Or.inl hp)]
    · have hne : ¬(d.prices = [] ∨ d.prices = []) := by rw [or_self]; exact hp
      by_cases hlen : (calcReturns d.prices).length < 2
      · simp only [calculateCorrelation, if_neg hne]
        rw [if_pos (Or.inl hlen)]
      · rcases hOr with hlt | hS0
        · exact absurd hlt hlen
        · have hlen2 : ¬((calcReturns d.prices).length < 2 ∨
              (calcReturns d.prices).length < 2) := by rw [or_self]; exact hlen
          have hn0 : ¬((calcReturns d.prices).length = 0) := by omega
          simp only [calculateCorrelation, Nat.min_self, List.take_length,
            if_neg hne, if_neg hlen2, if_neg hn0]
          rw [if_pos (Or.inl (by rw [hS0]; simp))]

/-- The three-sample price series `[1, 2, 1]` (returns `[1, -1/2]`). -/
def fixSeries : PriceData := ⟨"X", "A", [1, 2, 1], [0, 0, 0]⟩

/-- C6 (witness): self-correlation of `[1, 2, 1]` is exactly 1. -/
theorem claim_C6_witness :
    (2 ≤ (calcReturns fixSeries.prices).length ∧
      sumSqDev (calcReturns fixSeries.prices) ≠ 0) ∧
    calculateCorrelation fixSeries fixSeries = 1 := by
  have h1 : 2 ≤ (calcReturns fixSeries.prices).length := by
    norm_num [fixSeries, calcReturns]
  have h2 : sumSqDev (calcReturns fixSeries.prices) ≠ 0 := by
    norm_num [fixSeries, calcReturns, sumSqDev, listMean]
  exact ⟨⟨h1, h2⟩,
    (claim_C6_self_correlation fixSeries (by norm_num [fixSeries])).1 h1 h2⟩

/-! ### Monitor-loop lemmas and claim C7 -/

/-- When the MONITOR loop exits within its fuel, the exit happens at the first
poll satisfying an exit condition, after `10` seconds per elapsed poll, and the
`forced_liquidation` flag is set exactly when the profit target had NOT been
reached but liquidation risk fired. -/
theorem monitorLoop_some_spec (target : ℚ) (polls : ℕ → ℚ × Bool) :
    ∀ (fuel k0 : ℕ) (forced : Bool) (elapsed : ℕ),
      monitorLoop target polls fuel k0 = some (forced, elapsed) →
      ∃ k, k0 ≤ k ∧ elapsed = 10 * k ∧
        (target ≤ (polls k).1 ∨ (polls k).2 = true) ∧
        (∀ j, k0 ≤ j → j < k → ¬ target ≤ (polls j).1 ∧ (polls j).2 = false) ∧
        (forced = true ↔ (¬ target ≤ (polls k).1 ∧ (polls k).2 = true)) := by
  intro fuel
  induction fuel with
  | zero => intro k0 forced elapsed h; cases h
  | succ n ih =>
      intro k0 forced elapsed h
      simp only [monitorLoop] at h
      split_ifs at h with h1 h2
      · have hpair := Option.some.inj h
        have e1 := congrArg Prod.fst hpair
        have e2 := congrArg Prod.snd hpair
        dsimp only at e1 e2
        subst e1
        subst e2
        refine ⟨k0, le_refl _, rfl, Or.inl h1, ?_, ?_⟩
        · intro j hj1 hj2; omega
        · simp [h1]
      · have hpair := Option.some.inj h
        have e1 := congrArg Prod.fst hpair
        have e2 := congrArg Prod.snd hpair
        dsimp only at e1 e2
        subst e1
        subst e2
        refine ⟨k0, le_refl _, rfl, Or.inr h2, ?_, ?_⟩
        · intro j hj1 hj2; omega
        · simp [h1, h2]
      · obtain ⟨k, hk0, he, hcond, hmin, hforced⟩ := ih (k0 + 1) forced elapsed h
        refine ⟨k, by omega, he, hcond, ?_, hforced⟩
        intro j hj1 hj2
        rcases Nat.eq_or_lt_of_le hj1 with hj | hj
        · subst hj
          exact ⟨h1, by simpa using h2⟩
        · exact hmin j (by omega) hj2

/-- The MONITOR loop is still running after `fuel` polls exactly when no poll in
that window reached the profit target or signalled liquidation risk: time alone
never ends the loop. -/
theorem monitorLoop_none_iff (target : ℚ) (polls : ℕ → ℚ × Bool) :
    ∀ (fuel k0 : ℕ),
      monitorLoop target polls fuel k0 = none ↔
        ∀ k, k0 ≤ k → k < k0 + fuel →
          ¬ target ≤ (polls k).1 ∧ (polls k).2 = false := by
  intro fuel
  induction fuel with
  | zero =>
      intro k0
      constructor
      · intro _ k hk1 hk2; omega
      · intro _; rfl
  | succ n ih =>
      intro k0
      simp only [monitorLoop]
      split_ifs with h1 h2
      · constructor
        · intro h; cases h
        · intro hall
          exact absurd h1 (hall k0 (le_refl _) (by omega)).1
      · constructor
        · intro h; cases h
        · intro hall
          have := (hall k0 (le_refl _) (by omega)).2
          rw [h2] at this
          cases this
      · rw [ih (k0 + 1)]
        constructor
        · intro hall k hk1 hk2
          rcases Nat.eq_or_lt_of_le hk1 with hj | hj
          · subst hj
            exact ⟨h1, by simpa using h2⟩
          · exact hall k (by omega) (by omega)
        · intro hall k hk1 hk2
          exact hall k (by omega) (by omega)

/-- C7: the MONITOR phase polls P&L and liquidation risk at a fixed 10-second
cadence, leaves the loop only when the profit target is reached or risk fires
(never on elapsed time), closes all positions on either exit, and on a forced
exit additionally runs the convert-to-cash pass, which re-closes every venue and
logs its cash balance. -/
theorem claim_C7_monitor_exit :
    ∀ (clients : List ExchangeClient) (target : ℚ) (polls : ℕ → ℚ × Bool) (fuel : ℕ),
      (∀ (forced : Bool) (elapsed : ℕ),
        monitorLoop target polls fuel 0 = some (forced, elapsed) →
        ∃ k, elapsed = 10 * k ∧
          (target ≤ (polls k).1 ∨ (polls k).2 = true) ∧
          (∀ j, j < k → ¬ target ≤ (polls j).1 ∧ (polls j).2 = false) ∧
          (forced = true ↔ (¬ target ≤ (polls k).1 ∧ (polls k).2 = true))) ∧
      (monitorLoop target polls fuel 0 = none ↔
        ∀ k, k < fuel → ¬ target ≤ (polls k).1 ∧ (polls k).2 = false) ∧
      (∀ (forced : Bool) (elapsed : ℕ) (acts : List BotAction),
        monitorAndExitPhase clients target polls fuel = some (forced, elapsed, acts) →
        BotAction.closeAllVenues ∈ acts ∧
        (forced = false → acts = [BotAction.closeAllVenues]) ∧
        (forced = true → ∀ c ∈ clients,
          (c.closeAllPositions = none → BotAction.convertFailed c.name ∈ acts) ∧
          (∀ res, c.closeAllPositions = some res →
            BotAction.reconfirmFlat c.name ∈ acts) ∧
          (∀ res b, c.closeAllPositions = some res → c.getBalance = some b →
            BotAction.logCash c.name b.total ∈ acts))) := by
  intro clients target polls fuel
  refine ⟨?_, ?_, ?_⟩
  · intro forced elapsed h
    obtain ⟨k, _, he, hcond, hmin, hforced⟩ :=
      monitorLoop_some_spec target polls fuel 0 forced elapsed h
    exact ⟨k, he, hcond, fun j hj => hmin j (by omega) hj, hforced⟩
  · have h := monitorLoop_none_iff target polls fuel 0
    simpa using h
  · intro forced elapsed acts h
    simp only [monitorAndExitPhase] at h
    cases hm : monitorLoop target polls fuel 0 with
    | none => rw [hm] at h; cases h
    | some fe =>
        obtain ⟨f, e⟩ := fe
        simp only [hm] at h
        have hpair := Option.some.inj h
        have e1 := congrArg Prod.fst hpair
        have e23 := congrArg Prod.snd hpair
        have e2 := congrArg Prod.fst e23
        have e3 := congrArg Prod.snd e23
        dsimp only at e1 e2 e3
        subst e1
        subst e3
        refine ⟨by simp, ?_, ?_⟩
        · intro hfalse; subst hfalse; simp
        · intro htrue c hc
          subst htrue
          have hlift : ∀ x : BotAction, x ∈ convertClient c →
              x ∈ [BotAction.closeAllVenues] ++
                (if true = true then convertAllAssetsToCash clients else []) := by
            intro x hx
            simp only [if_pos rfl]
            exact List.mem_append.mpr (Or.inr
              (List.mem_flatMap.mpr ⟨c, hc, hx⟩))
          refine ⟨?_, ?_, ?_⟩
          · intro hnone
            exact hlift _ (by simp [convertClient, hnone])
          · intro res hres
            refine hlift _ ?_
            cases hb : c.getBalance <;> simp [convertClient, hres, hb]
          · intro res b hres hb
            exact hlift _ (by simp [convertClient, hres, hb])

/-- A venue whose close and balance operations succeed (flat, `$5` cash). -/
def fixMonClient : ExchangeClient where
  name := "A"
  getCurrentPrice := fun _ => some 1
  getAvailableAssets := none
  placeOrder := fun _ => none
  closeAllPositions := some []
  getBalance := some ⟨"USDC", 5, 0, 5⟩
  getPositions := some []
  liquidationRisk := some true

/-- A poll stream that signals liquidation risk on the very first poll while the
P&L (0) is below target. -/
def fixPolls : ℕ → ℚ × Bool := fun _ => (0, true)

/-- C7 (witness): the forced-exit path on a concrete run — close-all happens and
the convert pass re-confirms the venue flat and logs its cash. -/
theorem claim_C7_witness :
    BotAction.closeAllVenues ∈
        ([BotAction.closeAllVenues] ++ convertAllAssetsToCash [fixMonClient]) ∧
      BotAction.reconfirmFlat "A" ∈
        ([BotAction.closeAllVenues] ++ convertAllAssetsToCash [fixMonClient]) ∧
      BotAction.logCash "A" 5 ∈
        ([BotAction.closeAllVenues] ++ convertAllAssetsToCash [fixMonClient]) := by
  have hm : monitorLoop 1 fixPolls 1 0 = some (true, 0) := by
    rw [show (1 : ℕ) = 0 + 1 from rfl, monitorLoop]
    norm_num [fixPolls]
  have hph : monitorAndExitPhase [fixMonClient] 1 fixPolls 1
      = some (true, 0,
          [BotAction.closeAllVenues] ++ convertAllAssetsToCash [fixMonClient]) := by
    simp [monitorAndExitPhase, hm]
  have h := (claim_C7_monitor_exit [fixMonClient] 1 fixPolls 1).2.2 true 0
    ([BotAction.closeAllVenues] ++ convertAllAssetsToCash [fixMonClient]) hph
  refine ⟨h.1, ?_, ?_⟩
  · exact (h.2.2 rfl fixMonClient (by simp)).2.1 [] rfl
  · exact (h.2.2 rfl fixMonClient (by simp)).2.2 [] ⟨"USDC", 5, 0, 5⟩ rfl rfl

end PerpDex
